import Mathlib

/-!
Shallow embedding of the MOS kernel-core synchronization primitives
(`src/kernel/sync.hpp`) and of the static async executor
(`src/unnamed/part_000`), together with theorems checking the
specification's claims about them.

Modelling conventions:
- C++ `int32_t` counters (`Count_t`) are modelled as `Int`.
- The task table is a `List TCB_t` indexed by task id; `TCB_t` carries the
  current priority and the stored original priority used by priority
  inheritance.
- `MOS_ASSERT(cond, msg)` failures are modelled as `Except.error msg`.
- Every operation whose body the source wraps in a single `IrqGuard_t`
  critical section is modelled as one atomic transition on the state.
- `task.hpp` itself is not among the provided sources; the few primitives
  taken from it (`store_pri`, `restore_pri`, `block_to_raw`/the waiting-list
  insertion, `resume_raw`) are modelled from the specification's description
  and are marked `Modelled from the spec:` in their doc comments.
-/

namespace MOS

/-- Task identifier: the index of the task's TCB in the task table. -/
abbrev TaskId := Nat

/-- Priority value (`TCB_t::Prior_t`); numerically smaller means higher priority. -/
abbrev Prior := Int

/-- Configuration value `MOS_CONF_PRI_MIN` (`src/config.h`): the lowest priority. -/
def PRI_MIN : Prior := 127

/-- Modelled from the spec: the scheduling part of a task control block —
current priority plus the stored original priority used by the
priority-inheritance restore (`task.hpp` is not among the provided sources). -/
structure TCB_t where
  pri : Prior
  old_pri : Option Prior
deriving DecidableEq

/-- Placeholder TCB returned on an out-of-range task-table lookup. -/
def TCB_t.idle : TCB_t := { pri := PRI_MIN, old_pri := none }

/-- Current priority of task `t` (`TCB_t::get_pri`). -/
def getPri (tcbs : List TCB_t) (t : TaskId) : Prior :=
  (tcbs.getD t TCB_t.idle).pri

/-- Modelled from the spec: `TCB_t::store_pri` is a priority-raise-only
update that records the original priority only at the first boost
("`store_pri` must be a priority-raise-only operation that remembers the
original"; "only the first `store_pri` records"). -/
def TCB_t.store_pri (t : TCB_t) (p : Prior) : TCB_t :=
  if p < t.pri then
    { pri := p, old_pri := some (t.old_pri.getD t.pri) }
  else t

/-- Modelled from the spec: `TCB_t::restore_pri` restores the pre-store
priority recorded by the first `store_pri` and clears the record. -/
def TCB_t.restore_pri (t : TCB_t) : TCB_t :=
  match t.old_pri with
  | some q => { pri := q, old_pri := none }
  | none => t

/-- Apply `store_pri p` to task `o` in the task table. -/
def storePriAt (tcbs : List TCB_t) (o : TaskId) (p : Prior) : List TCB_t :=
  tcbs.set o ((tcbs.getD o TCB_t.idle).store_pri p)

/-- Apply `restore_pri` to task `o` in the task table. -/
def restorePriAt (tcbs : List TCB_t) (o : TaskId) : List TCB_t :=
  tcbs.set o (tcbs.getD o TCB_t.idle).restore_pri

/-- Modelled from the spec: `Task::block_to_raw` inserts the caller into the
given waiting list.  Per the spec, waiters are kept in priority order with
FIFO among equal priorities ("Sema/mutex waiters are woken in priority
order, FIFO within priority"), and `unlock` picks `begin()` as "the highest
priority task from the sorted waiting list", so insertion places `t` before
the first entry of strictly lower priority (larger value). -/
def block_to_raw (tcbs : List TCB_t) (t : TaskId) : List TaskId → List TaskId
  | [] => [t]
  | u :: us =>
    if getPri tcbs t < getPri tcbs u then t :: u :: us
    else u :: block_to_raw tcbs t us

/-! ## Counting semaphore (`Sema_t`, src/kernel/sync.hpp lines 20-75) -/

/-- State of `Sema_t`: the signed counter and the waiting list.
`Task::resume_raw(waiting_list.begin(), waiting_list)` is modelled as
removing the head of the waiting list. -/
structure Sema_t where
  waiting_list : List TaskId
  cnt : Int
deriving DecidableEq

/-- Model of `Sema_t::down` (P operation): assert IRQs enabled, `cnt -= 1`, and if the
new count is negative block the caller on the waiting list (the returned
`Bool` is `true` when the caller blocked and yielded). -/
def Sema_t.down (s : Sema_t) (tcbs : List TCB_t) (cur : TaskId) (irq : Bool) :
    Except String (Sema_t × Bool) :=
  if !irq then .error "Disabled Interrupt"
  else
    let cnt1 := s.cnt - 1
    if cnt1 < 0 then
      .ok ({ cnt := cnt1, waiting_list := block_to_raw tcbs cur s.waiting_list }, true)
    else
      .ok ({ s with cnt := cnt1 }, false)

/-- Model of `Sema_t::up_raw`: if the count is negative resume the first waiter, then
`cnt += 1`.  Returns the resumed task, if any. -/
def Sema_t.up_raw (s : Sema_t) : Sema_t × Option TaskId :=
  if s.cnt < 0 then
    match s.waiting_list with
    | [] => ({ s with cnt := s.cnt + 1 }, none)
    | w :: rest => ({ cnt := s.cnt + 1, waiting_list := rest }, some w)
  else ({ s with cnt := s.cnt + 1 }, none)

/-- Model of `Sema_t::up` (V operation): assert IRQs enabled, then `up_raw` (the
subsequent `Task::yield` affects scheduling only, not the semaphore state). -/
def Sema_t.up (s : Sema_t) (irq : Bool) : Except String (Sema_t × Option TaskId) :=
  if !irq then .error "Disabled Interrupt"
  else .ok s.up_raw

/-! ## Non-recursive lock (`Lock_t`, src/kernel/sync.hpp lines 77-115) -/

/-- State of `Lock_t`: a binary semaphore plus the owner pointer. -/
structure Lock_t where
  sema : Sema_t
  owner : Option TaskId
deriving DecidableEq

/-- Constructor `Lock_t::Lock_t()`: semaphore initialized to 1, no owner. -/
def Lock_t.init : Lock_t :=
  { sema := { waiting_list := [], cnt := 1 }, owner := none }

/-- Model of `Lock_t::acquire`, first phase: `sema.down()` runs first; if the caller
blocks inside `down()` the function is suspended right there (the returned
`Bool` is `true`) and the rest of `acquire` — the non-recursion assertion and
the `owner = Task::current()` assignment — does not execute until the task is
resumed (see `Lock_t.acquire_resumed`). -/
def Lock_t.acquire (l : Lock_t) (tcbs : List TCB_t) (cur : TaskId) (irq : Bool) :
    Except String (Lock_t × Bool) :=
  match l.sema.down tcbs cur irq with
  | .error e => .error e
  | .ok (s1, blocked) =>
    if blocked then
      .ok ({ l with sema := s1 }, true)
    else if l.owner = some cur then .error "Non-recursive lock"
    else .ok ({ sema := s1, owner := some cur }, false)

/-- Model of `Lock_t::acquire`, second phase: the statements executed after `down()`
returns, for a contender that had blocked and has now been resumed — the
non-recursion assertion followed by `owner = Task::current()`. -/
def Lock_t.acquire_resumed (l : Lock_t) (cur : TaskId) : Except String Lock_t :=
  if l.owner = some cur then .error "Non-recursive lock"
  else .ok { l with owner := some cur }

/-- Model of `Lock_t::release`: assert holder, clear `owner` before `sema.up()`. -/
def Lock_t.release (l : Lock_t) (cur : TaskId) (irq : Bool) :
    Except String (Lock_t × Option TaskId) :=
  if l.owner ≠ some cur then .error "Lock can only be released by holder"
  else
    match l.sema.up irq with
    | .error e => .error e
    | .ok (s1, r) => .ok ({ sema := s1, owner := none }, r)

/-! ## Priority-inheritance mutex (`MutexImpl_t`, src/kernel/sync.hpp lines 117-248) -/

/-- Helper `MutexImpl_t::pri_cmp`: `lhs` has higher priority than `rhs`. -/
def pri_cmp (lhs rhs : Prior) : Bool := lhs < rhs

/-- State of `MutexImpl_t`: semaphore (initially 1), recursive count, owner. -/
structure MutexImpl_t where
  sema : Sema_t
  recursive : Int
  owner : Option TaskId
deriving DecidableEq

/-- Initial `MutexImpl_t` state: `sema = 1`, `recursive = 0`, `owner = nullptr`. -/
def MutexImpl_t.init : MutexImpl_t :=
  { sema := { waiting_list := [], cnt := 1 }, recursive := 0, owner := none }

/-- Model of `MutexImpl_t::lock`: recursive re-entry check, priority-inheritance boost
of the owner, then the semaphore wait.  Returns the new mutex state, the new
task table, and whether the caller blocked.  The whole body runs under one
`IrqGuard_t`, so it is one atomic transition here. -/
def MutexImpl_t.lock (m : MutexImpl_t) (tcbs : List TCB_t) (cur : TaskId) (irq : Bool) :
    Except String (MutexImpl_t × List TCB_t × Bool) :=
  if !irq then .error "Disabled Interrupt"
  else if m.owner = some cur then
    .ok ({ m with recursive := m.recursive + 1 }, tcbs, false)
  else
    let tcbs1 :=
      match m.owner with
      | some o =>
        let owner_pri := getPri tcbs o
        let cur_pri := getPri tcbs cur
        if pri_cmp cur_pri owner_pri then storePriAt tcbs o cur_pri
        else tcbs
      | none => tcbs
    let cnt1 := m.sema.cnt - 1
    if cnt1 < 0 then
      let s1 : Sema_t := { cnt := cnt1, waiting_list := block_to_raw tcbs1 cur m.sema.waiting_list }
      .ok ({ m with sema := s1 }, tcbs1, true)
    else
      let s1 : Sema_t := { m.sema with cnt := cnt1 }
      .ok ({ sema := s1, owner := some cur, recursive := 1 }, tcbs1, false)

/-- The priority-inheritance step of `MutexImpl_t::lock` in isolation: boost
the owner `o` to the contender `t`'s priority via `store_pri` exactly when
`pri_cmp(cur_pri, owner_pri)` holds. -/
def pipBoost (tcbs : List TCB_t) (t o : TaskId) : List TCB_t :=
  if pri_cmp (getPri tcbs t) (getPri tcbs o) then storePriAt tcbs o (getPri tcbs t)
  else tcbs

/-- Model of `MutexImpl_t::unlock`: assert holder, decrement the recursive count, and
on full release restore the owner's priority and either hand ownership to the
first waiter (`owner = woken`, `recursive = 1`, `cnt += 1`) or free the mutex.
Returns the new mutex state, the new task table, and the resumed waiter, if
any.  The whole body runs under one `IrqGuard_t`, so it is one atomic
transition here. -/
def MutexImpl_t.unlock (m : MutexImpl_t) (tcbs : List TCB_t) (cur : TaskId) (irq : Bool) :
    Except String (MutexImpl_t × List TCB_t × Option TaskId) :=
  if !irq then .error "Disabled Interrupt"
  else if m.owner ≠ some cur then .error "Lock can only be released by holder"
  else
    let r := m.recursive - 1
    if r > 0 then .ok ({ m with recursive := r }, tcbs, none)
    else
      let tcbs1 := restorePriAt tcbs cur
      match m.sema.waiting_list with
      | [] =>
        let s1 : Sema_t := { m.sema with cnt := m.sema.cnt + 1 }
        .ok ({ sema := s1, recursive := r, owner := none }, tcbs1, none)
      | w :: rest =>
        let s1 : Sema_t := { cnt := m.sema.cnt + 1, waiting_list := rest }
        .ok ({ sema := s1, recursive := 1, owner := some w }, tcbs1, some w)

/-! ## Generation barrier (`Barrier_t`, src/kernel/sync.hpp lines 390-419) -/

/-- State of `Barrier_t`: the immutable `total`, current count `cnt` and the
generation counter `gen` (the member mutex and condition variable serialize
`wait()` bodies; they carry no extra state of their own here). -/
structure Barrier_t where
  total : Int
  cnt : Int
  gen : Int
deriving DecidableEq

/-- Outcome of one execution of the `Barrier_t::wait` body: either the caller
was the last arrival (`cnt == total`: reset, bump `gen`, `cv.notify_all()`),
or it blocks on the condition variable until `gen ≠ my_gen` where `my_gen`
is the generation it snapshotted on entry. -/
inductive BarrierOutcome where
  | release
  | blockUntil (my_gen : Int)
deriving DecidableEq

/-- The body of `Barrier_t::wait`, executed under `mtx.hold`: snapshot
`my_gen = gen`, `cnt += 1`; if `cnt == total` then `cnt = 0`, `gen += 1`,
notify all; else wait on the condition variable until `gen ≠ my_gen`. -/
def Barrier_t.wait_body (b : Barrier_t) : Barrier_t × BarrierOutcome :=
  let my_gen := b.gen
  let cnt1 := b.cnt + 1
  if cnt1 = b.total then
    ({ b with cnt := 0, gen := b.gen + 1 }, .release)
  else
    ({ b with cnt := cnt1 }, .blockUntil my_gen)

/-- Runs `n` sequential executions of the `Barrier_t::wait` body (the member mutex
serializes them), collecting each caller's outcome in arrival order. -/
def Barrier_t.arrivals : Barrier_t → Nat → Barrier_t × List BarrierOutcome
  | b, 0 => (b, [])
  | b, n + 1 =>
    let (b1, o) := b.wait_body
    let (b2, os) := b1.arrivals n
    (b2, o :: os)

/-! ## Async executor (`MOS::Kernel::Async::Executor`, src/unnamed/part_000) -/

/-- Configuration value `MOS_CONF_ASYNC_TASK_MAX` (`src/config.h`): capacity
of each ping-pong buffer and of the sleepers heap. -/
def ASYNC_TASK_MAX : Nat := 256

/-- Abstract `Lambda_t`: an identifier standing for a stored closure.  A
closure's behaviour when invoked is given by an environment mapping its
identifier to the list of identifiers it `post`s, in call order. -/
abbrev Lambda_t := Nat

/-- One entry of the sleepers heap (`Executor::Sleeper_t`). -/
structure Sleeper_t where
  wake_tick : Nat
  task : Lambda_t
deriving DecidableEq

/-- State of the static `Executor`: the two ping-pong task buffers, the
write index, and the sleepers min-heap.  The heap (`etl::priority_queue`
with `Sleeper_t::Compare`, `lhs.wake_tick > rhs.wake_tick`) keeps the entry
with the smallest `wake_tick` on top; it is modelled as a list sorted by
ascending `wake_tick`, whose head is `top()` and whose tail is the state
after `pop()`. -/
structure Exec where
  buf0 : List Lambda_t
  buf1 : List Lambda_t
  widx : Bool
  sleepers : List Sleeper_t
deriving DecidableEq

/-- Buffer `task_buffers[i]` for `i ∈ {0, 1}` (`false` is index 0). -/
def Exec.bufAt (e : Exec) (i : Bool) : List Lambda_t :=
  if i then e.buf1 else e.buf0

/-- Replace `task_buffers[i]`. -/
def Exec.setBuf (e : Exec) (i : Bool) (l : List Lambda_t) : Exec :=
  if i then { e with buf1 := l } else { e with buf0 := l }

/-- The signed-difference due test from `Executor::clean_sleepers`:
`static_cast<int32_t>(now - node.wake_tick) >= 0`, with `now - wake_tick`
computed in `uint32_t` arithmetic.  `usub32` is the 32-bit wrapping
subtraction and `toInt32` the reinterpretation of a 32-bit value as a signed
`int32_t`. -/
def UMOD : Nat := 2 ^ 32

/-- Wrapping 32-bit subtraction `a - b` on `uint32_t`. -/
def usub32 (a b : Nat) : Nat := (a + (UMOD - b % UMOD)) % UMOD

/-- Reinterpret a 32-bit value as `int32_t` (two's complement). -/
def toInt32 (x : Nat) : Int :=
  if x % UMOD < 2 ^ 31 then ((x % UMOD : Nat) : Int)
  else ((x % UMOD : Nat) : Int) - (UMOD : Int)

/-- Due test of `Executor::clean_sleepers`: `int32_t(now - wake) >= 0`. -/
def is_due (now wake : Nat) : Bool := 0 ≤ toInt32 (usub32 now wake)

/-- The `while` loop of `Executor::clean_sleepers`: while the heap is
non-empty and its top entry is due, push the entry's task into the current
write buffer if that buffer is not full, then pop the entry; stop at the
first not-due entry.  Takes and returns the write buffer and the heap. -/
def drainSleepers (now : Nat) : List Sleeper_t → List Lambda_t → List Lambda_t × List Sleeper_t
  | [], buf => (buf, [])
  | node :: rest, buf =>
    if is_due now node.wake_tick then
      let buf1 := if buf.length < ASYNC_TASK_MAX then buf ++ [node.task] else buf
      drainSleepers now rest buf1
    else (buf, node :: rest)

/-- Model of `Executor::clean_sleepers`: under one `IrqGuard_t`, read `now = os_ticks`
and run the drain loop against the current write buffer. -/
def Exec.clean_sleepers (e : Exec) (now : Nat) : Exec :=
  let (buf1, rest) := drainSleepers now e.sleepers (e.bufAt e.widx)
  { e.setBuf e.widx buf1 with sleepers := rest }

/-- Model of `Executor::post`: under an `IrqGuard_t`, push into the current write
buffer if it is not full, else assert `"Async Queue Full!"`. -/
def Exec.post (e : Exec) (fn : Lambda_t) : Except String Exec :=
  if (e.bufAt e.widx).length < ASYNC_TASK_MAX then
    .ok (e.setBuf e.widx (e.bufAt e.widx ++ [fn]))
  else .error "Async Queue Full!"

/-- Post a list of closures in order (e.g. the `post` calls a running task
makes, in program order). -/
def Exec.postList (e : Exec) : List Lambda_t → Except String Exec
  | [] => .ok e
  | p :: ps =>
    match e.post p with
    | .error msg => .error msg
    | .ok e1 => e1.postList ps

/-- The drain loop of `Executor::poll`: invoke every task of the read buffer
in order; invoking task `t` performs the `post` calls `env t`, in order. -/
def Exec.runAll (env : Lambda_t → List Lambda_t) : List Lambda_t → Exec → Except String Exec
  | [], e => .ok e
  | t :: ts, e =>
    match e.postList (env t) with
    | .error msg => .error msg
    | .ok e1 => Exec.runAll env ts e1

/-- Model of `Executor::poll`: `clean_sleepers()`, then under an `IrqGuard_t` return
`false` if the write buffer is empty, else capture `read_idx = write_idx`
and flip `write_idx`; outside the guard invoke every task of
`task_buffers[read_idx]` in order and clear that buffer.  Also returns the
list of invoked tasks in invocation order, to let theorems speak about it. -/
def Exec.poll (env : Lambda_t → List Lambda_t) (e : Exec) (now : Nat) :
    Except String (Bool × List Lambda_t × Exec) :=
  let e1 := e.clean_sleepers now
  if e1.bufAt e1.widx = [] then .ok (false, [], e1)
  else
    let read_idx := e1.widx
    let e2 := { e1 with widx := !e1.widx }
    let run_list := e2.bufAt read_idx
    match Exec.runAll env run_list e2 with
    | .error msg => .error msg
    | .ok e3 => .ok (true, run_list, e3.setBuf read_idx [])

/-- The executor state after one `poll` that drained the buffer holding `l`:
the write index has flipped, the tasks posted by the drained tasks
(`l.flatMap env`) sit in the new write buffer, and the drained buffer has
been cleared. -/
def pollResult (env : Lambda_t → List Lambda_t) (e : Exec) (l : List Lambda_t) : Exec :=
  (({ e with widx := !e.widx }).setBuf (!e.widx) (l.flatMap env)).setBuf e.widx []

/-- Environment used by the concrete executor scenarios: closure 0 posts
closure 1 and then closure 2; every other closure posts nothing. -/
def envW : Lambda_t → List Lambda_t :=
  fun t => if t = 0 then [1, 2] else []

/-- The `clean_sleepers` loop as claimed by the spec sentence for claim C9
(written from the spec's words, for comparison with `drainSleepers` from the
source): while the top entry is due, move its payload into the current write
buffer "unless full — assert", then pop it. -/
def drainSleepersClaimed (now : Nat) :
    List Sleeper_t → List Lambda_t → Except String (List Lambda_t × List Sleeper_t)
  | [], buf => .ok (buf, [])
  | node :: rest, buf =>
    if is_due now node.wake_tick then
      if buf.length < ASYNC_TASK_MAX then
        drainSleepersClaimed now rest (buf ++ [node.task])
      else .error "Async Queue Full!"
    else .ok (buf, node :: rest)

/-! ## Interleavings of semaphore operations (for the Sema invariant) -/

/-- One semaphore call: `down()` by a given (currently runnable) task, or
`up()` (by any task or ISR; the caller's identity does not matter). -/
inductive SemaOp where
  | down (t : TaskId)
  | up
deriving DecidableEq

/-- Run one semaphore call from thread context (IRQs enabled).  A task that
is blocked on the waiting list cannot run, so a `down` by a blocked task is
not a possible interleaving (`none`). -/
def runSemaOp (tcbs : List TCB_t) (s : Sema_t) : SemaOp → Option Sema_t
  | .down t =>
    if t ∈ s.waiting_list then none
    else
      match s.down tcbs t true with
      | .ok (s1, _) => some s1
      | .error _ => none
  | .up =>
    match s.up true with
    | .ok (s1, _) => some s1
    | .error _ => none

/-- Run a sequence of semaphore calls. -/
def runSemaOps (tcbs : List TCB_t) (s : Sema_t) : List SemaOp → Option Sema_t
  | [] => some s
  | op :: ops =>
    match runSemaOp tcbs s op with
    | some s1 => runSemaOps tcbs s1 ops
    | none => none

/-- The semaphore's counting invariant: the waiting list holds exactly
`-cnt` tasks when `cnt < 0` and is empty when `cnt ≥ 0` — in one equation,
`|waiting_list| = (-cnt)⁺`. -/
def SemaInv (s : Sema_t) : Prop :=
  s.waiting_list.length = (-s.cnt).toNat

/-! ## Interleavings of mutex operations (for the PIP invariant) -/

/-- The combined state of one `MutexImpl_t` and the task table. -/
structure MutexSys where
  mtx : MutexImpl_t
  tcbs : List TCB_t
deriving DecidableEq

/-- One mutex call by a given task. -/
inductive MutexOp where
  | lock (t : TaskId)
  | unlock (t : TaskId)
deriving DecidableEq

/-- Run one mutex call from thread context (IRQs enabled).  A task that is
blocked on the mutex cannot run, so calls by blocked tasks are not possible
interleavings; calls that fail an assertion (e.g. `unlock` by a non-holder)
halt and produce no successor state; task ids outside the task table are
not tasks. -/
def runMutexOp (s : MutexSys) : MutexOp → Option MutexSys
  | .lock t =>
    if t ∈ s.mtx.sema.waiting_list ∨ ¬ t < s.tcbs.length then none
    else
      match s.mtx.lock s.tcbs t true with
      | .ok (m1, tcbs1, _) => some { mtx := m1, tcbs := tcbs1 }
      | .error _ => none
  | .unlock t =>
    if t ∈ s.mtx.sema.waiting_list ∨ ¬ t < s.tcbs.length then none
    else
      match s.mtx.unlock s.tcbs t true with
      | .ok (m1, tcbs1, _) => some { mtx := m1, tcbs := tcbs1 }
      | .error _ => none

/-- Run a sequence of mutex calls. -/
def runMutexOps (s : MutexSys) : List MutexOp → Option MutexSys
  | [] => some s
  | op :: ops =>
    match runMutexOp s op with
    | some s1 => runMutexOps s1 ops
    | none => none

/-- Structural invariant of the mutex system, established at initialization
and preserved by every `lock`/`unlock`:
- if the mutex is free, nobody waits and the semaphore count is 1;
- if it is owned, the count is `-|waiters|`, the owner is not a waiter,
  the owner's id is in range, and — the priority-inheritance property —
  the owner's current priority is at least that of every waiter;
- waiters are pairwise distinct, in range, and sorted by priority. -/
def MutexInv (s : MutexSys) : Prop :=
  (s.mtx.owner = none → s.mtx.sema.waiting_list = [] ∧ s.mtx.sema.cnt = 1) ∧
  (∀ o, s.mtx.owner = some o →
    s.mtx.sema.cnt = -(s.mtx.sema.waiting_list.length : Int) ∧
    o ∉ s.mtx.sema.waiting_list ∧ o < s.tcbs.length ∧
    ∀ w ∈ s.mtx.sema.waiting_list, getPri s.tcbs o ≤ getPri s.tcbs w) ∧
  s.mtx.sema.waiting_list.Nodup ∧
  (∀ w ∈ s.mtx.sema.waiting_list, w < s.tcbs.length) ∧
  s.mtx.sema.waiting_list.Pairwise (fun a b => getPri s.tcbs a ≤ getPri s.tcbs b)

/-! ## Helper lemmas about the waiting-list insertion -/

theorem mem_block_to_raw (tcbs : List TCB_t) (t x : TaskId) (ws : List TaskId) :
    x ∈ block_to_raw tcbs t ws ↔ x = t ∨ x ∈ ws := by
  induction ws with
  | nil => simp [block_to_raw]
  | cons u us ih =>
    simp only [block_to_raw]
    split
    · simp [or_comm, or_assoc, or_left_comm]
    · simp [ih]
      tauto

theorem length_block_to_raw (tcbs : List TCB_t) (t : TaskId) (ws : List TaskId) :
    (block_to_raw tcbs t ws).length = ws.length + 1 := by
  induction ws with
  | nil => simp [block_to_raw]
  | cons u us ih =>
    simp only [block_to_raw]
    split
    · simp
    · simp [ih]

/-! ## Claim C1: mutex unlock hand-off to the first waiter -/

/-- C1: when the holder's `unlock` brings the recursive count to zero while
the waiting list is non-empty, the first waiter `w` is the task resumed, and
the state `unlock` leaves behind — produced inside the single `IrqGuard_t`
critical section that spans the whole body, hence with no intermediate
`owner = nullptr` state observable by other tasks — satisfies
`owner = some w`, `recursive = 1`, `cnt` increased by exactly one, and the
waiting list shrunk by exactly its head. -/
theorem mutex_unlock_handoff (m : MutexImpl_t) (tcbs : List TCB_t)
    (cur w : TaskId) (rest : List TaskId)
    (hown : m.owner = some cur) (hrec : m.recursive = 1)
    (hwl : m.sema.waiting_list = w :: rest) :
    m.unlock tcbs cur true =
      .ok ({ sema := { waiting_list := rest, cnt := m.sema.cnt + 1 }, recursive := 1, owner := some w },
           restorePriAt tcbs cur, some w) := by
  simp only [MutexImpl_t.unlock, hown, hrec, hwl, Bool.not_true, Bool.false_eq_true,
    if_false, ne_eq, not_true_eq_false]
  norm_num

/-- Witness for C1 at a concrete state: task 0 (boosted from priority 20 to
10) holds the mutex with `recursive = 1`, task 1 (priority 10) waits. -/
theorem mutex_unlock_handoff_witness :
    MutexImpl_t.unlock ⟨⟨[1], -1⟩, 1, some 0⟩ [⟨10, some 20⟩, ⟨10, none⟩] 0 true =
      .ok (⟨⟨[], 0⟩, 1, some 1⟩, [⟨20, none⟩, ⟨10, none⟩], some 1) :=
  mutex_unlock_handoff ⟨⟨[1], -1⟩, 1, some 0⟩ [⟨10, some 20⟩, ⟨10, none⟩] 0 1 [] rfl rfl rfl

/-! ## Claim C3: lock ownership is taken only after the semaphore is acquired -/

/-- C3: in `Lock_t::acquire` the `owner` field is assigned only after
`sema.down()` has returned: a contender that blocks inside `down()` leaves
`owner` untouched (first conjunct) — it is merely enqueued on the waiting
list — and the `owner = Task::current()` assignment happens on the
non-blocking path (second conjunct) or in the post-resume continuation of
`acquire` (third conjunct), never while the task is blocked. -/
theorem lock_acquire_owner_after_down (l : Lock_t) (tcbs : List TCB_t) (cur : TaskId) :
    (∀ l1, l.acquire tcbs cur true = .ok (l1, true) →
      l1.owner = l.owner ∧ cur ∈ l1.sema.waiting_list) ∧
    (∀ l1, l.acquire tcbs cur true = .ok (l1, false) → l1.owner = some cur) ∧
    (∀ l1, l.acquire_resumed cur = .ok l1 → l1.owner = some cur) := by
  refine ⟨?_, ?_, ?_⟩
  · intro l1 h
    unfold Lock_t.acquire Sema_t.down at h
    by_cases hlt : l.sema.cnt - 1 < 0
    · simp only [Bool.not_true, Bool.false_eq_true, if_false, if_pos hlt, if_true,
        Except.ok.injEq, Prod.mk.injEq, and_true] at h
      subst h
      exact ⟨rfl, (mem_block_to_raw tcbs cur cur l.sema.waiting_list).mpr (Or.inl rfl)⟩
    · simp only [Bool.not_true, Bool.false_eq_true, if_false, if_neg hlt] at h
      split at h
      · exact absurd h (by simp)
      · simp at h
  · intro l1 h
    unfold Lock_t.acquire Sema_t.down at h
    by_cases hlt : l.sema.cnt - 1 < 0
    · simp only [Bool.not_true, Bool.false_eq_true, if_false, if_pos hlt, if_true] at h
      simp at h
    · simp only [Bool.not_true, Bool.false_eq_true, if_false, if_neg hlt] at h
      split at h
      · exact absurd h (by simp)
      · simp only [Except.ok.injEq, Prod.mk.injEq, and_true] at h
        subst h
        rfl
  · intro l1 h
    unfold Lock_t.acquire_resumed at h
    split at h
    · exact absurd h (by simp)
    · simp only [Except.ok.injEq] at h
      subst h
      rfl

/-- Witness for C3 at a concrete state: the lock is held by task 1
(`cnt = 0`), task 0 contends, blocks, and the owner field still names
task 1. -/
theorem lock_acquire_owner_after_down_witness :
    (⟨⟨[0], -1⟩, some 1⟩ : Lock_t).owner = (⟨⟨[], 0⟩, some 1⟩ : Lock_t).owner ∧
    0 ∈ (⟨⟨[0], -1⟩, some 1⟩ : Lock_t).sema.waiting_list :=
  (lock_acquire_owner_after_down ⟨⟨[], 0⟩, some 1⟩ [⟨5, none⟩, ⟨7, none⟩] 0).1
    ⟨⟨[0], -1⟩, some 1⟩ rfl

/-! ## Claim C4: double acquire of the non-recursive lock -/

/-- Counterexample for C4: starting from a fresh `Lock_t`, task 0 acquires
the lock (uncontended), and its second `acquire` does NOT trigger the
`"Non-recursive lock"` assertion: `sema.down()` runs first, finds
`cnt - 1 = -1 < 0`, blocks task 0 on the waiting list and yields, so the
assertion after `down()` is never reached — the call hangs instead. -/
theorem lock_double_acquire_cex :
    Lock_t.acquire Lock_t.init [⟨5, none⟩] 0 true = .ok (⟨⟨[], 0⟩, some 0⟩, false) ∧
    Lock_t.acquire ⟨⟨[], 0⟩, some 0⟩ [⟨5, none⟩] 0 true = .ok (⟨⟨[0], -1⟩, some 0⟩, true) ∧
    Lock_t.acquire ⟨⟨[], 0⟩, some 0⟩ [⟨5, none⟩] 0 true ≠ .error "Non-recursive lock" := by
  refine ⟨rfl, rfl, ?_⟩
  intro hcontra
  rw [show Lock_t.acquire ⟨⟨[], 0⟩, some 0⟩ [⟨5, none⟩] 0 true =
        .ok (⟨⟨[0], -1⟩, some 0⟩, true) from rfl] at hcontra
  exact Except.noConfusion hcontra

/-- C4 (amended): a second `Lock_t::acquire` by the task already holding the
lock (`owner = some t`, `cnt = 0`) blocks the caller on the semaphore's
waiting list — a self-deadlock — leaving `owner` unchanged; the
`"Non-recursive lock"` assertion is not reached on this path. -/
theorem lock_double_acquire_blocks (l : Lock_t) (tcbs : List TCB_t) (t : TaskId)
    (_hown : l.owner = some t) (hcnt : l.sema.cnt = 0) :
    l.acquire tcbs t true =
      .ok ({ l with sema := { waiting_list := block_to_raw tcbs t l.sema.waiting_list, cnt := -1 } },
           true) := by
  simp only [Lock_t.acquire, Sema_t.down, Bool.not_true, Bool.false_eq_true, if_false, hcnt]
  norm_num

/-- Witness for C4's amended claim at the concrete state reached by the
counterexample run. -/
theorem lock_double_acquire_blocks_witness :
    Lock_t.acquire ⟨⟨[], 0⟩, some 0⟩ [⟨5, none⟩] 0 true =
      .ok (⟨⟨block_to_raw [⟨5, none⟩] 0 [], -1⟩, some 0⟩, true) :=
  lock_double_acquire_blocks ⟨⟨[], 0⟩, some 0⟩ [⟨5, none⟩] 0 rfl rfl

/-! ## Claim C2: semaphore counting -/

theorem semaInv_down (tcbs : List TCB_t) (s s1 : Sema_t) (t : TaskId) (b : Bool)
    (hinv : SemaInv s) (h : s.down tcbs t true = .ok (s1, b)) : SemaInv s1 := by
  unfold Sema_t.down at h
  by_cases hlt : s.cnt - 1 < 0
  · simp only [Bool.not_true, Bool.false_eq_true, if_false, if_pos hlt,
      Except.ok.injEq, Prod.mk.injEq] at h
    obtain ⟨h1, -⟩ := h
    subst h1
    unfold SemaInv at hinv ⊢
    simp only [length_block_to_raw]
    omega
  · simp only [Bool.not_true, Bool.false_eq_true, if_false, if_neg hlt,
      Except.ok.injEq, Prod.mk.injEq] at h
    obtain ⟨h1, -⟩ := h
    subst h1
    unfold SemaInv at hinv ⊢
    simp only []
    omega

theorem semaInv_up (s s1 : Sema_t) (r : Option TaskId)
    (hinv : SemaInv s) (h : s.up true = .ok (s1, r)) : SemaInv s1 := by
  unfold Sema_t.up Sema_t.up_raw at h
  simp only [Bool.not_true, Bool.false_eq_true, if_false, Except.ok.injEq] at h
  by_cases hlt : s.cnt < 0
  · rw [if_pos hlt] at h
    match hw : s.waiting_list with
    | [] =>
      unfold SemaInv at hinv
      rw [hw] at hinv
      simp at hinv
      omega
    | w :: rest =>
      rw [hw] at h
      injection h with h1 h2
      subst h1
      unfold SemaInv at hinv ⊢
      rw [hw] at hinv
      simp only [List.length_cons] at hinv ⊢
      omega
  · rw [if_neg hlt] at h
    injection h with h1 h2
    subst h1
    unfold SemaInv at hinv ⊢
    change s.waiting_list.length = (-(s.cnt + 1)).toNat
    omega

theorem semaInv_op (tcbs : List TCB_t) (s s1 : Sema_t) (op : SemaOp)
    (hinv : SemaInv s) (h : runSemaOp tcbs s op = some s1) : SemaInv s1 := by
  cases op with
  | down t =>
    simp only [runSemaOp] at h
    by_cases hmem : t ∈ s.waiting_list
    · rw [if_pos hmem] at h
      exact absurd h (by simp)
    · rw [if_neg hmem] at h
      cases hd : s.down tcbs t true with
      | error e => rw [hd] at h; exact absurd h (by simp)
      | ok p =>
        obtain ⟨s2, b⟩ := p
        rw [hd] at h
        simp only [Option.some.injEq] at h
        subst h
        exact semaInv_down tcbs s s2 t b hinv hd
  | up =>
    simp only [runSemaOp] at h
    cases hd : s.up true with
    | error e => rw [hd] at h; exact absurd h (by simp)
    | ok p =>
      obtain ⟨s2, r⟩ := p
      rw [hd] at h
      simp only [Option.some.injEq] at h
      subst h
      exact semaInv_up s s2 r hinv hd

theorem semaInv_ops (tcbs : List TCB_t) (ops : List SemaOp) :
    ∀ (s s1 : Sema_t), SemaInv s → runSemaOps tcbs s ops = some s1 → SemaInv s1 := by
  induction ops with
  | nil =>
    intro s s1 hinv h
    simp only [runSemaOps, Option.some.injEq] at h
    subst h
    exact hinv
  | cons op ops ih =>
    intro s s1 hinv h
    unfold runSemaOps at h
    cases hop : runSemaOp tcbs s op with
    | none => rw [hop] at h; exact absurd h (by simp)
    | some s2 =>
      rw [hop] at h
      exact ih s2 s1 (semaInv_op tcbs s s2 op hinv hop) h

/-- Counterexample for C2: the claimed equivalence "`cnt < 0` holds if and
only if the waiting list contains exactly `-cnt` tasks" fails on the state
reached from a semaphore initialized with `N = 0` after the interleaving
`down(0); up()`: there `cnt = 0` and the waiting list is empty, so the list
does contain exactly `-cnt = 0` tasks while `cnt < 0` is false. -/
theorem sema_count_iff_cex :
    runSemaOps [⟨10, none⟩] { waiting_list := [], cnt := 0 } [SemaOp.down 0, SemaOp.up] =
      some { waiting_list := [], cnt := 0 } ∧
    ¬ ((({ waiting_list := [], cnt := 0 } : Sema_t).cnt < 0) ↔
        (({ waiting_list := [], cnt := 0 } : Sema_t).waiting_list.length =
          (-({ waiting_list := [], cnt := 0 } : Sema_t).cnt).toNat)) := by
  constructor
  · rfl
  · decide

/-- C2 (amended): each `down()` decreases `cnt` by exactly one and blocks the
caller on the waiting list iff the resulting `cnt` is negative; each `up()`
increases `cnt` by exactly one and resumes the first waiter iff `cnt` was
negative before the increment; and after every interleaving of operations on
a semaphore initialized with `N ≥ 0`, the waiting list holds exactly `-cnt`
tasks when `cnt < 0` and is empty when `cnt ≥ 0` (the unstrengthened
biconditional of the original claim fails at `cnt = 0`, see the
counterexample). -/
theorem sema_count_amended :
    (∀ (s s1 : Sema_t) (tcbs : List TCB_t) (t : TaskId) (b : Bool),
      s.down tcbs t true = .ok (s1, b) →
        s1.cnt = s.cnt - 1 ∧ (b = true ↔ s1.cnt < 0) ∧
        (b = true → t ∈ s1.waiting_list)) ∧
    (∀ (s s1 : Sema_t) (r : Option TaskId),
      SemaInv s → s.up true = .ok (s1, r) →
        s1.cnt = s.cnt + 1 ∧ (r.isSome ↔ s.cnt < 0) ∧
        (s.cnt < 0 → r = s.waiting_list.head? ∧ s1.waiting_list = s.waiting_list.tail) ∧
        (0 ≤ s.cnt → r = none ∧ s1.waiting_list = s.waiting_list)) ∧
    (∀ (tcbs : List TCB_t) (N : Int) (ops : List SemaOp) (s1 : Sema_t),
      0 ≤ N → runSemaOps tcbs { waiting_list := [], cnt := N } ops = some s1 →
        (s1.cnt < 0 → (s1.waiting_list.length : Int) = -s1.cnt) ∧
        (0 ≤ s1.cnt → s1.waiting_list = [])) := by
  refine ⟨?_, ?_, ?_⟩
  · intro s s1 tcbs t b h
    unfold Sema_t.down at h
    by_cases hlt : s.cnt - 1 < 0
    · simp only [Bool.not_true, Bool.false_eq_true, if_false, if_pos hlt,
        Except.ok.injEq, Prod.mk.injEq] at h
      obtain ⟨h1, h2⟩ := h
      subst h1
      subst h2
      refine ⟨rfl, by simpa using hlt, ?_⟩
      intro _
      exact (mem_block_to_raw tcbs t t s.waiting_list).mpr (Or.inl rfl)
    · simp only [Bool.not_true, Bool.false_eq_true, if_false, if_neg hlt,
        Except.ok.injEq, Prod.mk.injEq] at h
      obtain ⟨h1, h2⟩ := h
      subst h1
      subst h2
      exact ⟨rfl, by simpa using hlt, by simp⟩
  · intro s s1 r hinv h
    unfold Sema_t.up Sema_t.up_raw at h
    simp only [Bool.not_true, Bool.false_eq_true, if_false, Except.ok.injEq] at h
    by_cases hlt : s.cnt < 0
    · rw [if_pos hlt] at h
      match hw : s.waiting_list with
      | [] =>
        unfold SemaInv at hinv
        rw [hw] at hinv
        simp at hinv
        omega
      | w :: rest =>
        rw [hw] at h
        injection h with h1 h2
        subst h1
        subst h2
        exact ⟨rfl, by simpa using hlt, fun _ => ⟨rfl, rfl⟩,
          fun hge => absurd hlt (by omega)⟩
    · rw [if_neg hlt] at h
      injection h with h1 h2
      subst h1
      subst h2
      exact ⟨rfl, by simpa using hlt, fun hneg => absurd hneg hlt, fun _ => ⟨rfl, rfl⟩⟩
  · intro tcbs N ops s1 hN hrun
    have h0 : SemaInv { waiting_list := [], cnt := N } := by
      unfold SemaInv
      simp only [List.length_nil]
      omega
    have h1 := semaInv_ops tcbs ops _ s1 h0 hrun
    unfold SemaInv at h1
    constructor
    · intro hneg
      omega
    · intro hge
      have : s1.waiting_list.length = 0 := by omega
      exact List.length_eq_zero.mp this

/-- Witness for C2's amended claim: the invariant holds on the state reached
from `N = 1` by `down(0); down(1); up()` (`cnt = 0`, nobody waiting), and a
`down` from there blocks task 2 with `cnt = -1`. -/
theorem sema_count_amended_witness :
    ((({ waiting_list := [2], cnt := -1 } : Sema_t).cnt < 0 →
        ((({ waiting_list := [2], cnt := -1 } : Sema_t).waiting_list.length : Int) =
          -({ waiting_list := [2], cnt := -1 } : Sema_t).cnt)) ∧
      (0 ≤ (({ waiting_list := [2], cnt := -1 } : Sema_t).cnt) →
        ({ waiting_list := [2], cnt := -1 } : Sema_t).waiting_list = [])) :=
  sema_count_amended.2.2 [⟨10, none⟩, ⟨10, none⟩, ⟨10, none⟩] 1
    [SemaOp.down 0, SemaOp.down 1, SemaOp.up, SemaOp.down 2]
    { waiting_list := [2], cnt := -1 } (by decide) (by decide)

/-! ## Claim C5: priority inheritance -/

theorem getPri_set_ne (tcbs : List TCB_t) (o w : TaskId) (v : TCB_t) (h : w ≠ o) :
    getPri (tcbs.set o v) w = getPri tcbs w := by
  unfold getPri
  induction tcbs generalizing o w with
  | nil => rfl
  | cons a as ih =>
    cases o with
    | zero =>
      cases w with
      | zero => exact absurd rfl h
      | succ w1 => simp [List.getD_cons_succ]
    | succ o1 =>
      cases w with
      | zero => simp [List.getD_cons_zero]
      | succ w1 =>
        simp only [List.set_cons_succ, List.getD_cons_succ]
        exact ih o1 w1 (fun he => h (congrArg Nat.succ he))

theorem getPri_set_self (tcbs : List TCB_t) (o : TaskId) (v : TCB_t) (h : o < tcbs.length) :
    getPri (tcbs.set o v) o = v.pri := by
  unfold getPri
  induction tcbs generalizing o with
  | nil => simp at h
  | cons a as ih =>
    cases o with
    | zero => simp [List.getD_cons_zero]
    | succ o1 =>
      simp only [List.set_cons_succ, List.getD_cons_succ]
      exact ih o1 (by simpa using h)

theorem getPri_pipBoost_other (tcbs : List TCB_t) (t o w : TaskId) (h : w ≠ o) :
    getPri (pipBoost tcbs t o) w = getPri tcbs w := by
  unfold pipBoost
  split
  · exact getPri_set_ne tcbs o w _ h
  · rfl

theorem getPri_pipBoost_owner (tcbs : List TCB_t) (t o : TaskId) (ho : o < tcbs.length) :
    getPri (pipBoost tcbs t o) o =
      if getPri tcbs t < getPri tcbs o then getPri tcbs t else getPri tcbs o := by
  unfold pipBoost pri_cmp
  by_cases hlt : getPri tcbs t < getPri tcbs o
  · rw [if_pos (by simpa using hlt), if_pos hlt]
    unfold storePriAt TCB_t.store_pri
    have : (tcbs.getD o TCB_t.idle).pri = getPri tcbs o := rfl
    rw [getPri_set_self _ _ _ ho]
    simp only [this, if_pos hlt]
  · rw [if_neg (by simpa using hlt), if_neg hlt]

theorem length_pipBoost (tcbs : List TCB_t) (t o : TaskId) :
    (pipBoost tcbs t o).length = tcbs.length := by
  unfold pipBoost storePriAt
  split <;> simp

theorem length_restorePriAt (tcbs : List TCB_t) (o : TaskId) :
    (restorePriAt tcbs o).length = tcbs.length := by
  unfold restorePriAt
  simp

theorem getPri_restorePriAt_other (tcbs : List TCB_t) (o w : TaskId) (h : w ≠ o) :
    getPri (restorePriAt tcbs o) w = getPri tcbs w :=
  getPri_set_ne tcbs o w _ h

theorem pairwise_block_to_raw (tcbs : List TCB_t) (t : TaskId) (ws : List TaskId)
    (hs : ws.Pairwise (fun a b => getPri tcbs a ≤ getPri tcbs b)) :
    (block_to_raw tcbs t ws).Pairwise (fun a b => getPri tcbs a ≤ getPri tcbs b) := by
  induction ws with
  | nil => simp [block_to_raw]
  | cons u us ih =>
    rw [List.pairwise_cons] at hs
    obtain ⟨hu, hus⟩ := hs
    simp only [block_to_raw]
    split
    next hlt =>
      rw [List.pairwise_cons]
      refine ⟨?_, by rw [List.pairwise_cons]; exact ⟨hu, hus⟩⟩
      intro x hx
      rcases List.mem_cons.mp hx with hx | hx
      · exact le_of_lt (hx ▸ hlt)
      · exact le_trans (le_of_lt hlt) (hu x hx)
    next hge =>
      rw [List.pairwise_cons]
      refine ⟨?_, ih hus⟩
      intro x hx
      rcases (mem_block_to_raw tcbs t x us).mp hx with hx | hx
      · subst hx
        exact le_of_not_lt hge
      · exact hu x hx

theorem nodup_block_to_raw (tcbs : List TCB_t) (t : TaskId) (ws : List TaskId)
    (hmem : t ∉ ws) (hnd : ws.Nodup) :
    (block_to_raw tcbs t ws).Nodup := by
  induction ws with
  | nil => simp [block_to_raw]
  | cons u us ih =>
    rw [List.nodup_cons] at hnd
    obtain ⟨hu, hus⟩ := hnd
    simp only [block_to_raw]
    split
    · rw [List.nodup_cons]
      exact ⟨hmem, List.nodup_cons.mpr ⟨hu, hus⟩⟩
    · rw [List.nodup_cons]
      constructor
      · intro hin
        rcases (mem_block_to_raw tcbs t u us).mp hin with h | h
        · exact hmem (h ▸ List.mem_cons_self u us)
        · exact hu h
      · exact ih (fun hin => hmem (List.mem_cons_of_mem u hin)) hus

/-- Evaluation of `MutexImpl_t::lock` when the caller already owns the mutex. -/
theorem lock_recursive_eval (m : MutexImpl_t) (tcbs : List TCB_t) (t : TaskId)
    (howner : m.owner = some t) :
    m.lock tcbs t true = .ok ({ m with recursive := m.recursive + 1 }, tcbs, false) := by
  simp [MutexImpl_t.lock, howner]

/-- Evaluation of `MutexImpl_t::lock` when another task owns the mutex and
the semaphore count goes negative: the PIP boost is applied and the caller
blocks. -/
theorem lock_contended_eval (m : MutexImpl_t) (tcbs : List TCB_t) (t o : TaskId)
    (howner : m.owner = some o) (hot : o ≠ t) (hcnt : m.sema.cnt - 1 < 0) :
    m.lock tcbs t true =
      .ok ({ sema := { waiting_list := block_to_raw (pipBoost tcbs t o) t m.sema.waiting_list,
                       cnt := m.sema.cnt - 1 },
             recursive := m.recursive, owner := m.owner },
           pipBoost tcbs t o, true) := by
  have hot2 : (some o = some t) = False :=
    eq_false (fun he => hot (Option.some.inj he))
  simp only [MutexImpl_t.lock, Bool.not_true, Bool.false_eq_true, if_false, howner,
    hot2, pipBoost, pri_cmp, if_pos hcnt]

/-- Evaluation of `MutexImpl_t::lock` when the mutex is free (`owner = none`)
and the semaphore count stays non-negative: uncontended acquisition. -/
theorem lock_uncontended_eval (m : MutexImpl_t) (tcbs : List TCB_t) (t : TaskId)
    (howner : m.owner = none) (hcnt : ¬ m.sema.cnt - 1 < 0) :
    m.lock tcbs t true =
      .ok ({ sema := { waiting_list := m.sema.waiting_list, cnt := m.sema.cnt - 1 },
             recursive := 1, owner := some t },
           tcbs, false) := by
  have hot2 : ((none : Option TaskId) = some t) = False := by simp
  simp only [MutexImpl_t.lock, Bool.not_true, Bool.false_eq_true, if_false, howner,
    hot2, if_neg hcnt]

/-- Evaluation of `MutexImpl_t::unlock` on a still-recursive release. -/
theorem unlock_early_eval (m : MutexImpl_t) (tcbs : List TCB_t) (cur : TaskId)
    (howner : m.owner = some cur) (hr : m.recursive - 1 > 0) :
    m.unlock tcbs cur true = .ok ({ m with recursive := m.recursive - 1 }, tcbs, none) := by
  simp only [MutexImpl_t.unlock, Bool.not_true, Bool.false_eq_true, if_false, howner,
    ne_eq, not_true_eq_false, if_false, if_pos hr]

/-- Evaluation of `MutexImpl_t::unlock` on a full release with no waiters. -/
theorem unlock_free_eval (m : MutexImpl_t) (tcbs : List TCB_t) (cur : TaskId)
    (howner : m.owner = some cur) (hr : ¬ m.recursive - 1 > 0)
    (hwl : m.sema.waiting_list = []) :
    m.unlock tcbs cur true =
      .ok ({ sema := { waiting_list := [], cnt := m.sema.cnt + 1 },
             recursive := m.recursive - 1, owner := none },
           restorePriAt tcbs cur, none) := by
  simp only [MutexImpl_t.unlock, Bool.not_true, Bool.false_eq_true, if_false, howner,
    ne_eq, not_true_eq_false, hwl, if_neg hr]

/-- Evaluation of `MutexImpl_t::unlock` on a full release with waiters: the
hand-off branch. -/
theorem unlock_handoff_eval (m : MutexImpl_t) (tcbs : List TCB_t) (cur w : TaskId)
    (rest : List TaskId) (howner : m.owner = some cur) (hr : ¬ m.recursive - 1 > 0)
    (hwl : m.sema.waiting_list = w :: rest) :
    m.unlock tcbs cur true =
      .ok ({ sema := { waiting_list := rest, cnt := m.sema.cnt + 1 },
             recursive := 1, owner := some w },
           restorePriAt tcbs cur, some w) := by
  simp only [MutexImpl_t.unlock, Bool.not_true, Bool.false_eq_true, if_false, howner,
    ne_eq, not_true_eq_false, hwl, if_neg hr]

/-- Evaluation of `MutexImpl_t::lock` when another task owns the mutex but
the semaphore count stays non-negative (unreachable from a well-formed
state, but the function is total): the caller acquires without blocking;
the PIP boost has still been applied. -/
theorem lock_steal_eval (m : MutexImpl_t) (tcbs : List TCB_t) (t o : TaskId)
    (howner : m.owner = some o) (hot : o ≠ t) (hcnt : ¬ m.sema.cnt - 1 < 0) :
    m.lock tcbs t true =
      .ok ({ sema := { waiting_list := m.sema.waiting_list, cnt := m.sema.cnt - 1 },
             recursive := 1, owner := some t },
           pipBoost tcbs t o, false) := by
  have hot2 : (some o = some t) = False :=
    eq_false (fun he => hot (Option.some.inj he))
  simp only [MutexImpl_t.lock, Bool.not_true, Bool.false_eq_true, if_false, howner,
    hot2, pipBoost, pri_cmp, if_neg hcnt]

/-- Evaluation of `MutexImpl_t::unlock` called by a non-holder: the
`"Lock can only be released by holder"` assertion fires. -/
theorem unlock_nonholder_eval (m : MutexImpl_t) (tcbs : List TCB_t) (cur : TaskId)
    (h : ¬ m.owner = some cur) :
    m.unlock tcbs cur true = .error "Lock can only be released by holder" := by
  simp only [MutexImpl_t.unlock, Bool.not_true, Bool.false_eq_true, if_false, ne_eq, h,
    not_false_eq_true, if_true]

theorem mutexInv_op (s s1 : MutexSys) (op : MutexOp)
    (hinv : MutexInv s) (h : runMutexOp s op = some s1) : MutexInv s1 := by
  obtain ⟨hfree, hown, hnd, hbound, hsort⟩ := hinv
  cases op with
  | lock t =>
    simp only [runMutexOp] at h
    by_cases hpre : t ∈ s.mtx.sema.waiting_list ∨ ¬ t < s.tcbs.length
    · rw [if_pos hpre] at h
      exact absurd h (by simp)
    · rw [if_neg hpre] at h
      push_neg at hpre
      obtain ⟨hmem, hlen⟩ := hpre
      cases howner : s.mtx.owner with
      | none =>
        obtain ⟨hwl, hcnt⟩ := hfree howner
        rw [lock_uncontended_eval s.mtx s.tcbs t howner (by rw [hcnt]; norm_num)] at h
        simp only [Option.some.injEq] at h
        subst h
        refine ⟨fun hnone => absurd hnone (by simp), ?_, by simp [hwl], by simp [hwl],
          by simp [hwl]⟩
        intro o2 ho2
        obtain rfl : t = o2 := by simpa using ho2
        exact ⟨by simp [hwl, hcnt], by simp [hwl], hlen, by simp [hwl]⟩
      | some o =>
        obtain ⟨hcnt, honmem, holen, hople⟩ := hown o howner
        by_cases hot : o = t
        · subst hot
          rw [lock_recursive_eval s.mtx s.tcbs o howner] at h
          simp only [Option.some.injEq] at h
          subst h
          refine ⟨?_, ?_, hnd, hbound, hsort⟩
          · show s.mtx.owner = none → _
            intro hnone
            rw [howner] at hnone
            exact absurd hnone (by simp)
          · show ∀ o2, s.mtx.owner = some o2 → _
            intro o2 ho2
            exact hown o2 ho2
        · have hcnt1 : s.mtx.sema.cnt - 1 < 0 := by
            rw [hcnt]
            omega
          rw [lock_contended_eval s.mtx s.tcbs t o howner hot hcnt1] at h
          simp only [Option.some.injEq] at h
          subst h
          have hto : t ≠ o := fun he => hot he.symm
          have f1 : ∀ w, w ≠ o → getPri (pipBoost s.tcbs t o) w = getPri s.tcbs w :=
            fun w hw => getPri_pipBoost_other s.tcbs t o w hw
          have f2a : getPri (pipBoost s.tcbs t o) o ≤ getPri s.tcbs o := by
            rw [getPri_pipBoost_owner s.tcbs t o holen]
            split
            · exact le_of_lt (by assumption)
            · exact le_rfl
          have f2b : getPri (pipBoost s.tcbs t o) o ≤ getPri s.tcbs t := by
            rw [getPri_pipBoost_owner s.tcbs t o holen]
            split
            · exact le_rfl
            · exact le_of_not_lt (by assumption)
          have hsort1 : s.mtx.sema.waiting_list.Pairwise
              (fun a b => getPri (pipBoost s.tcbs t o) a ≤ getPri (pipBoost s.tcbs t o) b) := by
            refine List.Pairwise.imp_of_mem ?_ hsort
            intro a b ha hb hab
            rw [f1 a (fun he => honmem (he ▸ ha)), f1 b (fun he => honmem (he ▸ hb))]
            exact hab
          refine ⟨fun hnone => absurd hnone (by simp [howner]), ?_, ?_, ?_, ?_⟩
          · intro o2 ho2
            obtain rfl : o = o2 := by
              have : s.mtx.owner = some o2 := ho2
              rw [howner] at this
              exact Option.some.inj this
            refine ⟨?_, ?_, ?_, ?_⟩
            · show s.mtx.sema.cnt - 1 = -((block_to_raw (pipBoost s.tcbs t o) t
                s.mtx.sema.waiting_list).length : Int)
              rw [length_block_to_raw, hcnt]
              push_cast
              ring
            · show o ∉ block_to_raw (pipBoost s.tcbs t o) t s.mtx.sema.waiting_list
              intro hin
              rcases (mem_block_to_raw _ t o _).mp hin with he | he
              · exact hot he
              · exact honmem he
            · show o < (pipBoost s.tcbs t o).length
              rw [length_pipBoost]
              exact holen
            · intro w hw
              rcases (mem_block_to_raw _ t w _).mp hw with he | he
              · subst he
                rw [f1 w hto]
                exact f2b
              · rw [f1 w (fun h2 => honmem (h2 ▸ he))]
                exact le_trans f2a (hople w he)
          · exact nodup_block_to_raw _ t _ hmem hnd
          · intro w hw
            rcases (mem_block_to_raw _ t w _).mp hw with he | he
            · subst he
              rw [length_pipBoost]
              exact hlen
            · rw [length_pipBoost]
              exact hbound w he
          · exact pairwise_block_to_raw _ t _ hsort1
  | unlock t =>
    simp only [runMutexOp] at h
    by_cases hpre : t ∈ s.mtx.sema.waiting_list ∨ ¬ t < s.tcbs.length
    · rw [if_pos hpre] at h
      exact absurd h (by simp)
    · rw [if_neg hpre] at h
      push_neg at hpre
      obtain ⟨hmem, hlen⟩ := hpre
      by_cases howner : s.mtx.owner = some t
      case neg =>
        rw [unlock_nonholder_eval s.mtx s.tcbs t howner] at h
        exact absurd h (by simp)
      case pos =>
        obtain ⟨hcnt, honmem, holen, hople⟩ := hown t howner
        by_cases hr : s.mtx.recursive - 1 > 0
        · rw [unlock_early_eval s.mtx s.tcbs t howner hr] at h
          simp only [Option.some.injEq] at h
          subst h
          refine ⟨?_, ?_, hnd, hbound, hsort⟩
          · show s.mtx.owner = none → _
            intro hnone
            rw [howner] at hnone
            exact absurd hnone (by simp)
          · show ∀ o2, s.mtx.owner = some o2 → _
            intro o2 ho2
            exact hown o2 ho2
        · cases hwl : s.mtx.sema.waiting_list with
          | nil =>
            rw [unlock_free_eval s.mtx s.tcbs t howner hr hwl] at h
            simp only [Option.some.injEq] at h
            subst h
            rw [hwl] at hcnt
            refine ⟨fun _ => ⟨rfl, ?_⟩, fun o2 ho2 => absurd ho2 (by simp), by simp,
              by simp, by simp⟩
            show s.mtx.sema.cnt + 1 = 1
            simp at hcnt
            omega
          | cons w rest =>
            rw [unlock_handoff_eval s.mtx s.tcbs t w rest howner hr hwl] at h
            simp only [Option.some.injEq] at h
            subst h
            rw [hwl] at hcnt honmem hople hnd hbound hsort
            have hwt : w ≠ t := fun he => honmem (he ▸ List.mem_cons_self w rest)
            have f1 : ∀ x, x ≠ t → getPri (restorePriAt s.tcbs t) x = getPri s.tcbs x :=
              fun x hx => getPri_restorePriAt_other s.tcbs t x hx
            rw [List.nodup_cons] at hnd
            rw [List.pairwise_cons] at hsort
            refine ⟨fun hnone => absurd hnone (by simp), ?_, hnd.2, ?_, ?_⟩
            · intro o2 ho2
              obtain rfl : w = o2 := by simpa using ho2
              refine ⟨?_, hnd.1, ?_, ?_⟩
              · show s.mtx.sema.cnt + 1 = -(rest.length : Int)
                rw [hcnt]
                simp only [List.length_cons]
                push_cast
                ring
              · show w < (restorePriAt s.tcbs t).length
                rw [length_restorePriAt]
                exact hbound w (List.mem_cons_self w rest)
              · intro v hv
                have hvt : v ≠ t := fun he => honmem (he ▸ List.mem_cons_of_mem w hv)
                rw [f1 w hwt, f1 v hvt]
                exact hsort.1 v hv
            · intro v hv
              rw [length_restorePriAt]
              exact hbound v (List.mem_cons_of_mem w hv)
            · refine List.Pairwise.imp_of_mem ?_ hsort.2
              intro a b ha hb hab
              have hat : a ≠ t := fun he => honmem (he ▸ List.mem_cons_of_mem w ha)
              have hbt : b ≠ t := fun he => honmem (he ▸ List.mem_cons_of_mem w hb)
              rw [f1 a hat, f1 b hbt]
              exact hab

theorem mutexInv_ops (ops : List MutexOp) :
    ∀ (s s1 : MutexSys), MutexInv s → runMutexOps s ops = some s1 → MutexInv s1 := by
  induction ops with
  | nil =>
    intro s s1 hinv h
    simp only [runMutexOps, Option.some.injEq] at h
    subst h
    exact hinv
  | cons op ops ih =>
    intro s s1 hinv h
    unfold runMutexOps at h
    cases hop : runMutexOp s op with
    | none => rw [hop] at h; exact absurd h (by simp)
    | some s2 =>
      rw [hop] at h
      exact ih s2 s1 (mutexInv_op s s2 op hinv hop) h

/-- C5: when `MutexImpl_t::lock` is called by task `t` while the mutex is
owned by a different, non-null task `o`: if `t`'s priority value is strictly
smaller (higher priority) than `o`'s current one, `lock` raises `o`'s
current priority to `t`'s via `store_pri` before `t` blocks; otherwise `o`'s
priority is unchanged (first conjunct).  Consequently, on every state
reachable by `lock`/`unlock` interleavings from a fresh mutex, the owner's
current priority is at least the priority of every task blocked on the
mutex (second conjunct; priorities compare inverted: smaller value means
higher priority). -/
theorem mutex_pip (tcbs0 : List TCB_t) :
    (∀ (m m1 : MutexImpl_t) (tcbs tcbs1 : List TCB_t) (t o : TaskId) (b : Bool),
      m.owner = some o → o ≠ t → o < tcbs.length →
      m.lock tcbs t true = .ok (m1, tcbs1, b) →
      (pri_cmp (getPri tcbs t) (getPri tcbs o) = true →
        getPri tcbs1 o = getPri tcbs t) ∧
      (pri_cmp (getPri tcbs t) (getPri tcbs o) = false →
        getPri tcbs1 o = getPri tcbs o)) ∧
    (∀ (ops : List MutexOp) (s : MutexSys) (o w : TaskId),
      runMutexOps { mtx := MutexImpl_t.init, tcbs := tcbs0 } ops = some s →
      s.mtx.owner = some o → w ∈ s.mtx.sema.waiting_list →
      getPri s.tcbs o ≤ getPri s.tcbs w) := by
  constructor
  · intro m m1 tcbs tcbs1 t o b howner hot ho h
    have hkey : tcbs1 = pipBoost tcbs t o := by
      by_cases hcnt : m.sema.cnt - 1 < 0
      · rw [lock_contended_eval m tcbs t o howner hot hcnt] at h
        simp only [Except.ok.injEq, Prod.mk.injEq] at h
        exact h.2.1.symm
      · rw [lock_steal_eval m tcbs t o howner hot hcnt] at h
        simp only [Except.ok.injEq, Prod.mk.injEq] at h
        exact h.2.1.symm
    subst hkey
    constructor
    · intro hcmp
      rw [getPri_pipBoost_owner tcbs t o ho,
        if_pos (by simpa [pri_cmp] using hcmp)]
    · intro hcmp
      rw [getPri_pipBoost_owner tcbs t o ho,
        if_neg (by simpa [pri_cmp] using hcmp)]
  · intro ops s o w hrun howner hw
    have hinv0 : MutexInv { mtx := MutexImpl_t.init, tcbs := tcbs0 } := by
      refine ⟨fun _ => ⟨rfl, rfl⟩, fun o2 ho2 => absurd ho2 (by simp [MutexImpl_t.init]),
        by simp [MutexImpl_t.init], by simp [MutexImpl_t.init], by simp [MutexImpl_t.init]⟩
    have hinv := mutexInv_ops ops _ s hinv0 hrun
    exact (hinv.2.1 o howner).2.2.2 w hw

/-- Witness for C5: from tasks `{0 ↦ pri 20, 1 ↦ pri 10}`, after
`lock(0); lock(1)` task 1 is blocked, task 0 is the owner boosted to
priority 10 with original 20 stored, and the PIP inequality holds between
owner 0 and waiter 1. -/
theorem mutex_pip_witness :
    getPri [⟨10, some 20⟩, ⟨10, none⟩] 0 ≤ getPri [⟨10, some 20⟩, ⟨10, none⟩] 1 :=
  (mutex_pip [⟨20, none⟩, ⟨10, none⟩]).2 [MutexOp.lock 0, MutexOp.lock 1]
    ⟨⟨⟨[1], -1⟩, 1, some 0⟩, [⟨10, some 20⟩, ⟨10, none⟩]⟩ 0 1 (by decide) rfl
    (List.mem_singleton.mpr rfl)

/-! ## Claim C6: generation barrier cohort -/

theorem barrier_arrivals_eq (k : Nat) :
    ∀ (b : Barrier_t), 0 < k → b.cnt + k = b.total →
      b.arrivals k = ({ b with cnt := 0, gen := b.gen + 1 },
        List.replicate (k - 1) (BarrierOutcome.blockUntil b.gen) ++ [BarrierOutcome.release]) := by
  induction k with
  | zero => intro b h0; exact absurd h0 (by simp)
  | succ k ih =>
    intro b _ htot
    by_cases hk : k = 0
    · subst hk
      have hlast : b.cnt + 1 = b.total := by omega
      simp only [Barrier_t.arrivals, Barrier_t.wait_body, if_pos hlast]
      rfl
    · have hnot : ¬ b.cnt + 1 = b.total := by omega
      simp only [Barrier_t.arrivals, Barrier_t.wait_body, if_neg hnot]
      have hrec := ih { b with cnt := b.cnt + 1 } (by omega) (by simp; omega)
      rw [hrec]
      have hk1 : k + 1 - 1 = (k - 1) + 1 := by omega
      rw [hk1, List.replicate_succ]
      rfl

/-- C6: for a barrier with `total = N ≥ 1` and `N` callers of `wait()`
(serialized by the member mutex): every caller snapshots the entry
generation `g` and increments `cnt`; the first `N - 1` arrivals block on the
condition variable with predicate `gen ≠ g`, the `N`-th resets `cnt` to 0,
bumps `gen` to `g + 1` (which satisfies every blocked waiter's predicate,
`g + 1 ≠ g`) and notifies all; and a second cohort of `N` `wait()` calls on
the resulting state behaves identically at generation `g + 1` — no stuck
count. -/
theorem barrier_cohort (total g : Int) (h1 : 1 ≤ total) :
    Barrier_t.arrivals ⟨total, 0, g⟩ total.toNat =
      (⟨total, 0, g + 1⟩,
        List.replicate (total.toNat - 1) (BarrierOutcome.blockUntil g) ++
          [BarrierOutcome.release]) ∧
    g + 1 ≠ g ∧
    Barrier_t.arrivals ⟨total, 0, g + 1⟩ total.toNat =
      (⟨total, 0, g + 1 + 1⟩,
        List.replicate (total.toNat - 1) (BarrierOutcome.blockUntil (g + 1)) ++
          [BarrierOutcome.release]) := by
  refine ⟨?_, by omega, ?_⟩
  · exact barrier_arrivals_eq total.toNat ⟨total, 0, g⟩ (by omega) (by simp; omega)
  · exact barrier_arrivals_eq total.toNat ⟨total, 0, g + 1⟩ (by omega) (by simp; omega)

/-- Witness for C6 at `total = 3`, entry generation 0: outcomes are
`[blockUntil 0, blockUntil 0, release]` and the barrier ends at
`cnt = 0, gen = 1`; the second cohort ends at `gen = 2`. -/
theorem barrier_cohort_witness :
    Barrier_t.arrivals ⟨3, 0, 0⟩ 3 =
      (⟨3, 0, 1⟩, [BarrierOutcome.blockUntil 0, BarrierOutcome.blockUntil 0,
        BarrierOutcome.release]) ∧
    Barrier_t.arrivals ⟨3, 0, 1⟩ 3 =
      (⟨3, 0, 2⟩, [BarrierOutcome.blockUntil 1, BarrierOutcome.blockUntil 1,
        BarrierOutcome.release]) := by
  obtain ⟨h1, -, h3⟩ := barrier_cohort 3 0 (by norm_num)
  constructor
  · rw [show ((3 : Int).toNat) = 3 from rfl] at h1
    simpa using h1
  · rw [show ((3 : Int).toNat) = 3 from rfl] at h3
    simpa using h3

/-! ## Claim C7: signed-difference due test across 32-bit tick wrap -/

/-- C7: a sleeper with wake tick `wake` is classified due at tick `now`
exactly when `int32_t(now - wake) ≥ 0`, and this classification equals
"the wrap-aware elapsed delta `(now - wake) mod 2³²` is below `2³¹`" for
every pair of 32-bit ticks — i.e. it is correct across 32-bit wrap for every
delta smaller than `2³¹` (first conjunct).  In particular a sleeper with
`wake = 0xFFFF_FFF0` examined at `now = 0x0000_0010` is due (second
conjunct), and `clean_sleepers` fires it: the task is moved into the write
buffer and the entry popped (third conjunct). -/
theorem tick_wrap_due (now wake : Nat) (_hn : now < UMOD) (hw : wake < UMOD) :
    (is_due now wake = true ↔ (now + (UMOD - wake)) % UMOD < 2 ^ 31) ∧
    is_due 16 4294967280 = true ∧
    Exec.clean_sleepers ⟨[], [], false, [⟨4294967280, 7⟩]⟩ 16 = ⟨[7], [], false, []⟩ := by
  refine ⟨?_, by decide, by decide⟩
  unfold is_due toInt32 usub32
  rw [Nat.mod_eq_of_lt hw]
  have hU : 0 < UMOD := by norm_num [UMOD]
  set d := (now + (UMOD - wake)) % UMOD with hd
  have hdlt : d < UMOD := Nat.mod_lt _ hU
  rw [Nat.mod_eq_of_lt hdlt, decide_eq_true_eq]
  have hU2 : (UMOD : Int) = 4294967296 := by norm_num [UMOD]
  have hdlt2 : d < 4294967296 := by
    simp only [UMOD] at hdlt
    norm_num at hdlt
    exact hdlt
  by_cases hc : d < 2 ^ 31
  · rw [if_pos hc]
    exact iff_of_true (Int.natCast_nonneg d) hc
  · rw [if_neg hc]
    refine iff_of_false ?_ hc
    rw [hU2]
    omega

/-- Witness for C7 at the wrap pair from the spec: `now = 0x0000_0010`,
`wake = 0xFFFF_FFF0`, whose wrap-aware delta is `0x20 < 2³¹`. -/
theorem tick_wrap_due_witness :
    is_due 16 4294967280 = true ↔ (16 + (UMOD - 4294967280)) % UMOD < 2 ^ 31 :=
  (tick_wrap_due 16 4294967280 (by norm_num [UMOD]) (by norm_num [UMOD])).1

/-! ## Claim C8: poll order and the ping-pong swap -/

theorem bufAt_setBuf_self (e : Exec) (i : Bool) (l : List Lambda_t) :
    (e.setBuf i l).bufAt i = l := by
  cases i <;> rfl

theorem bufAt_setBuf_not (e : Exec) (i : Bool) (l : List Lambda_t) :
    (e.setBuf i l).bufAt (!i) = e.bufAt (!i) := by
  cases i <;> rfl

theorem widx_setBuf (e : Exec) (i : Bool) (l : List Lambda_t) :
    (e.setBuf i l).widx = e.widx := by
  cases i <;> rfl

theorem sleepers_setBuf (e : Exec) (i : Bool) (l : List Lambda_t) :
    (e.setBuf i l).sleepers = e.sleepers := by
  cases i <;> rfl

theorem setBuf_setBuf (e : Exec) (i : Bool) (l1 l2 : List Lambda_t) :
    (e.setBuf i l1).setBuf i l2 = e.setBuf i l2 := by
  cases i <;> rfl

theorem setBuf_self_eq (e : Exec) (i : Bool) : e.setBuf i (e.bufAt i) = e := by
  cases i <;> rfl

theorem post_ok (e : Exec) (p : Lambda_t) (h : (e.bufAt e.widx).length < ASYNC_TASK_MAX) :
    e.post p = .ok (e.setBuf e.widx (e.bufAt e.widx ++ [p])) := by
  unfold Exec.post
  rw [if_pos h]

theorem postList_ok (ps : List Lambda_t) :
    ∀ (e : Exec), (e.bufAt e.widx).length + ps.length ≤ ASYNC_TASK_MAX →
      e.postList ps = .ok (e.setBuf e.widx (e.bufAt e.widx ++ ps)) := by
  induction ps with
  | nil =>
    intro e h
    simp only [Exec.postList, List.append_nil, setBuf_self_eq]
  | cons p ps ih =>
    intro e h
    have hlt : (e.bufAt e.widx).length < ASYNC_TASK_MAX := by
      simp only [List.length_cons] at h
      omega
    have h2 : ((e.setBuf e.widx (e.bufAt e.widx ++ [p])).bufAt
        (e.setBuf e.widx (e.bufAt e.widx ++ [p])).widx).length + ps.length ≤
          ASYNC_TASK_MAX := by
      rw [widx_setBuf, bufAt_setBuf_self]
      simp only [List.length_append, List.length_cons, List.length_nil] at h ⊢
      omega
    calc e.postList (p :: ps)
        = (e.setBuf e.widx (e.bufAt e.widx ++ [p])).postList ps := by
          simp only [Exec.postList]
          rw [post_ok e p hlt]
      _ = .ok ((e.setBuf e.widx (e.bufAt e.widx ++ [p])).setBuf
            (e.setBuf e.widx (e.bufAt e.widx ++ [p])).widx
            ((e.setBuf e.widx (e.bufAt e.widx ++ [p])).bufAt
              (e.setBuf e.widx (e.bufAt e.widx ++ [p])).widx ++ ps)) := ih _ h2
      _ = .ok (e.setBuf e.widx (e.bufAt e.widx ++ p :: ps)) := by
          rw [widx_setBuf, bufAt_setBuf_self, setBuf_setBuf, List.append_assoc,
            List.singleton_append]

theorem runAll_ok (env : Lambda_t → List Lambda_t) (ts : List Lambda_t) :
    ∀ (e : Exec), (e.bufAt e.widx).length + (ts.flatMap env).length ≤ ASYNC_TASK_MAX →
      Exec.runAll env ts e = .ok (e.setBuf e.widx (e.bufAt e.widx ++ ts.flatMap env)) := by
  induction ts with
  | nil =>
    intro e h
    simp only [Exec.runAll, List.flatMap_nil, List.append_nil, setBuf_self_eq]
  | cons t ts ih =>
    intro e h
    rw [List.flatMap_cons] at h
    have h1 : (e.bufAt e.widx).length + (env t).length ≤ ASYNC_TASK_MAX := by
      simp only [List.length_append] at h
      omega
    have h2 : ((e.setBuf e.widx (e.bufAt e.widx ++ env t)).bufAt
        (e.setBuf e.widx (e.bufAt e.widx ++ env t)).widx).length +
          (ts.flatMap env).length ≤ ASYNC_TASK_MAX := by
      rw [widx_setBuf, bufAt_setBuf_self]
      simp only [List.length_append] at h ⊢
      omega
    calc Exec.runAll env (t :: ts) e
        = Exec.runAll env ts (e.setBuf e.widx (e.bufAt e.widx ++ env t)) := by
          simp only [Exec.runAll]
          rw [postList_ok (env t) e h1]
      _ = .ok ((e.setBuf e.widx (e.bufAt e.widx ++ env t)).setBuf
            (e.setBuf e.widx (e.bufAt e.widx ++ env t)).widx
            ((e.setBuf e.widx (e.bufAt e.widx ++ env t)).bufAt
              (e.setBuf e.widx (e.bufAt e.widx ++ env t)).widx ++ ts.flatMap env)) :=
          ih _ h2
      _ = .ok (e.setBuf e.widx (e.bufAt e.widx ++ (t :: ts).flatMap env)) := by
          rw [widx_setBuf, bufAt_setBuf_self, setBuf_setBuf, List.append_assoc,
            List.flatMap_cons]

theorem clean_sleepers_of_no_sleepers (e : Exec) (now : Nat) (h : e.sleepers = []) :
    e.clean_sleepers now = e := by
  unfold Exec.clean_sleepers
  rw [h]
  show { e.setBuf e.widx (e.bufAt e.widx) with sleepers := [] } = e
  rw [setBuf_self_eq]
  cases e
  simp_all

/-- One `poll()` on an executor with no pending sleepers whose write buffer
holds `l ≠ []` and whose other buffer is empty drains exactly `l`, in order,
and leaves the state `pollResult env e l`, provided the posts made during
the drain fit in the other buffer. -/
theorem poll_drains (env : Lambda_t → List Lambda_t) (e : Exec) (now : Nat)
    (l : List Lambda_t) (hs : e.sleepers = []) (hw : e.bufAt e.widx = l) (hne : l ≠ [])
    (ho : e.bufAt (!e.widx) = []) (hcap : (l.flatMap env).length ≤ ASYNC_TASK_MAX) :
    Exec.poll env e now = .ok (true, l, pollResult env e l) := by
  obtain ⟨b0, b1, i, sl⟩ := e
  simp only at hs
  subst hs
  cases i
  · replace hw : b0 = l := hw
    replace ho : b1 = [] := ho
    subst hw
    subst ho
    have hstep : Exec.poll env ⟨b0, [], false, []⟩ now =
        (if b0 = [] then Except.ok (false, [], (⟨b0, [], false, []⟩ : Exec))
         else
           match Exec.runAll env b0 ⟨b0, [], true, []⟩ with
           | .error msg => .error msg
           | .ok e3 => .ok (true, b0, e3.setBuf false [])) := rfl
    rw [hstep, if_neg hne,
      runAll_ok env b0 ⟨b0, [], true, []⟩ (by simpa [Exec.bufAt] using hcap)]
    rfl
  · replace hw : b1 = l := hw
    replace ho : b0 = [] := ho
    subst hw
    subst ho
    have hstep : Exec.poll env ⟨[], b1, true, []⟩ now =
        (if b1 = [] then Except.ok (false, [], (⟨[], b1, true, []⟩ : Exec))
         else
           match Exec.runAll env b1 ⟨[], b1, false, []⟩ with
           | .error msg => .error msg
           | .ok e3 => .ok (true, b1, e3.setBuf true [])) := rfl
    rw [hstep, if_neg hne,
      runAll_ok env b1 ⟨[], b1, false, []⟩ (by simpa [Exec.bufAt] using hcap)]
    rfl

theorem pollResult_widx (env : Lambda_t → List Lambda_t) (e : Exec) (l : List Lambda_t) :
    (pollResult env e l).widx = !e.widx := by
  unfold pollResult
  rw [widx_setBuf, widx_setBuf]

theorem pollResult_wbuf (env : Lambda_t → List Lambda_t) (e : Exec) (l : List Lambda_t) :
    (pollResult env e l).bufAt (!e.widx) = l.flatMap env := by
  unfold pollResult
  rw [show (!e.widx) = !(e.widx) from rfl]
  rw [show ((({ e with widx := !e.widx } : Exec).setBuf (!e.widx) (l.flatMap env)).setBuf
      e.widx []).bufAt (!e.widx) =
    ((({ e with widx := !e.widx } : Exec).setBuf (!e.widx) (l.flatMap env)).setBuf
      e.widx []).bufAt (!(e.widx)) from rfl]
  rw [bufAt_setBuf_not, bufAt_setBuf_self]

theorem pollResult_rbuf (env : Lambda_t → List Lambda_t) (e : Exec) (l : List Lambda_t) :
    (pollResult env e l).bufAt e.widx = [] := by
  unfold pollResult
  rw [bufAt_setBuf_self]

theorem pollResult_sleepers (env : Lambda_t → List Lambda_t) (e : Exec) (l : List Lambda_t)
    (hs : e.sleepers = []) : (pollResult env e l).sleepers = [] := by
  unfold pollResult
  rw [sleepers_setBuf, sleepers_setBuf]
  exact hs

/-- C8: a `poll()` on an executor whose write buffer holds `l` (with the
other ping-pong buffer empty and no due sleepers) invokes exactly the tasks
of `l`, in posted order; every `post` made from inside a running task lands
in the other ping-pong buffer — afterwards the new write buffer holds
`l.flatMap env`, the posts of the drained tasks in program order — and none
of those posted tasks is invoked by the current poll; the next `poll()`
invokes exactly them, again in order, so a task that posts `X` then `Y` sees
`X` run before `Y` on the next poll, not the current one. -/
theorem poll_pingpong (env : Lambda_t → List Lambda_t) (e : Exec) (now : Nat)
    (l : List Lambda_t) (hs : e.sleepers = []) (hw : e.bufAt e.widx = l) (hne : l ≠ [])
    (ho : e.bufAt (!e.widx) = []) (hcap : (l.flatMap env).length ≤ ASYNC_TASK_MAX) :
    Exec.poll env e now = .ok (true, l, pollResult env e l) ∧
    (pollResult env e l).bufAt (pollResult env e l).widx = l.flatMap env ∧
    (pollResult env e l).bufAt (!(pollResult env e l).widx) = [] ∧
    (pollResult env e l).sleepers = [] ∧
    (∀ now2, l.flatMap env ≠ [] →
      ((l.flatMap env).flatMap env).length ≤ ASYNC_TASK_MAX →
      Exec.poll env (pollResult env e l) now2 =
        .ok (true, l.flatMap env, pollResult env (pollResult env e l) (l.flatMap env))) := by
  have h2 : (pollResult env e l).bufAt (pollResult env e l).widx = l.flatMap env := by
    rw [pollResult_widx, pollResult_wbuf]
  have h3 : (pollResult env e l).bufAt (!(pollResult env e l).widx) = [] := by
    rw [pollResult_widx, Bool.not_not, pollResult_rbuf]
  have h4 : (pollResult env e l).sleepers = [] := pollResult_sleepers env e l hs
  refine ⟨poll_drains env e now l hs hw hne ho hcap, h2, h3, h4, ?_⟩
  intro now2 hne2 hcap2
  exact poll_drains env (pollResult env e l) now2 (l.flatMap env) h4 h2 hne2 h3 hcap2

/-- Witness for C8: with closure 0 posting `1` then `2` (`envW`), a poll on
a buffer holding `[0]` runs `[0]` and the next poll runs `[0].flatMap envW`
— that is `[1, 2]`: X before Y — having placed them in the other buffer. -/
theorem poll_pingpong_witness :
    Exec.poll envW ⟨[0], [], false, []⟩ 0 =
      .ok (true, [0], pollResult envW ⟨[0], [], false, []⟩ [0]) ∧
    Exec.poll envW (pollResult envW ⟨[0], [], false, []⟩ [0]) 1 =
      .ok (true, [0].flatMap envW,
        pollResult envW (pollResult envW ⟨[0], [], false, []⟩ [0]) ([0].flatMap envW)) :=
  ⟨(poll_pingpong envW ⟨[0], [], false, []⟩ 0 [0] rfl rfl (by decide) rfl (by decide)).1,
   (poll_pingpong envW ⟨[0], [], false, []⟩ 0 [0] rfl rfl (by decide) rfl
      (by decide)).2.2.2.2 1 (by decide) (by decide)⟩

/-! ## Claims C9 and C10: the clean_sleepers drain loop -/

theorem bufAt_withSleepers (e : Exec) (r : List Sleeper_t) (i : Bool) :
    ({ e with sleepers := r } : Exec).bufAt i = e.bufAt i := by
  cases i <;> rfl

theorem widx_withSleepers (e : Exec) (r : List Sleeper_t) :
    ({ e with sleepers := r } : Exec).widx = e.widx := rfl

theorem drainSleepers_eq (now : Nat) :
    ∀ (ss : List Sleeper_t) (buf : List Lambda_t),
      drainSleepers now ss buf =
        (buf ++ ((ss.takeWhile (fun n => is_due now n.wake_tick)).map Sleeper_t.task).take
            (ASYNC_TASK_MAX - buf.length),
         ss.dropWhile (fun n => is_due now n.wake_tick)) := by
  intro ss
  induction ss with
  | nil =>
    intro buf
    simp [drainSleepers]
  | cons node rest ih =>
    intro buf
    by_cases hdue : is_due now node.wake_tick = true
    · rw [show drainSleepers now (node :: rest) buf =
          drainSleepers now rest
            (if buf.length < ASYNC_TASK_MAX then buf ++ [node.task] else buf) by
        simp only [drainSleepers, if_pos hdue]]
      rw [List.takeWhile_cons, List.dropWhile_cons, if_pos hdue, if_pos hdue]
      by_cases hfull : buf.length < ASYNC_TASK_MAX
      · rw [if_pos hfull, ih (buf ++ [node.task])]
        have hlen : (buf ++ [node.task]).length = buf.length + 1 := by
          simp
        have htake : ASYNC_TASK_MAX - buf.length = (ASYNC_TASK_MAX - (buf.length + 1)) + 1 := by
          omega
        rw [hlen, htake, List.map_cons, List.take_succ_cons, List.append_assoc,
          List.singleton_append]
      · rw [if_neg hfull, ih buf]
        have htake : ASYNC_TASK_MAX - buf.length = 0 := by omega
        rw [htake, List.take_zero, List.map_cons, List.take_zero]
    · rw [show drainSleepers now (node :: rest) buf = (buf, node :: rest) by
        simp only [drainSleepers, if_neg hdue]]
      rw [List.takeWhile_cons, List.dropWhile_cons, if_neg hdue, if_neg hdue]
      simp

theorem clean_sleepers_run (e : Exec) (now : Nat) :
    e.clean_sleepers now =
      { e.setBuf e.widx (e.bufAt e.widx ++
          ((e.sleepers.takeWhile (fun n => is_due now n.wake_tick)).map Sleeper_t.task).take
            (ASYNC_TASK_MAX - (e.bufAt e.widx).length)) with
        sleepers := e.sleepers.dropWhile (fun n => is_due now n.wake_tick) } := by
  unfold Exec.clean_sleepers
  rw [drainSleepers_eq]

set_option maxRecDepth 8192 in
/-- Counterexample for C9: `clean_sleepers` does NOT assert when the write
buffer is full.  On a state whose write buffer already holds
`ASYNC_TASK_MAX = 256` entries and whose heap holds one due sleeper
(`wake = 5`, task `42`, at `now = 10`), the source loop pops the entry,
skips the push, and returns normally with the buffers unchanged — while the
loop described by the claim's words (`drainSleepersClaimed`) would stop with
the `"Async Queue Full!"` assertion. -/
theorem clean_sleepers_no_assert_cex :
    Exec.clean_sleepers ⟨List.replicate 256 9, [], false, [⟨5, 42⟩]⟩ 10 =
      ⟨List.replicate 256 9, [], false, []⟩ ∧
    drainSleepersClaimed 10 [⟨5, 42⟩] (List.replicate 256 9) =
      .error "Async Queue Full!" := by
  constructor
  · rfl
  · rfl

/-- C9 (amended): `clean_sleepers`, under one IRQ guard, loops while the
heap's top entry is due (`int32_t(now - wake) ≥ 0`): it moves the entry's
payload into the current write buffer only if that buffer is not full — a
due task finding the buffer full is silently discarded, with no assertion —
and pops the entry either way; the loop stops at the first not-due entry,
leaving exactly the not-due suffix in the heap and the other buffer and the
write index untouched. -/
theorem clean_sleepers_spec_all (e : Exec) (now : Nat) :
    (e.clean_sleepers now).sleepers =
      e.sleepers.dropWhile (fun n => is_due now n.wake_tick) ∧
    (e.clean_sleepers now).bufAt e.widx =
      e.bufAt e.widx ++
        ((e.sleepers.takeWhile (fun n => is_due now n.wake_tick)).map Sleeper_t.task).take
          (ASYNC_TASK_MAX - (e.bufAt e.widx).length) ∧
    (e.clean_sleepers now).bufAt (!e.widx) = e.bufAt (!e.widx) ∧
    (e.clean_sleepers now).widx = e.widx := by
  rw [clean_sleepers_run]
  refine ⟨rfl, ?_, ?_, ?_⟩
  · cases hw : e.widx <;>
      simp only [Exec.setBuf, Exec.bufAt, hw] <;> rfl
  · cases hw : e.widx <;>
      simp only [Exec.setBuf, Exec.bufAt, hw, Bool.not_false, Bool.not_true] <;> rfl
  · cases hw : e.widx <;> simp only [Exec.setBuf, hw] <;> rfl

/-- C9 (amended): `clean_sleepers`, under one IRQ guard, loops while the
heap's top entry is due (`int32_t(now - wake) ≥ 0`): it moves the entry's
payload into the current write buffer only if that buffer is not full — a
due task finding the buffer full is silently discarded, with no assertion —
and pops the entry either way; the loop stops at the first not-due entry,
leaving exactly the not-due suffix in the heap and the other buffer and the
write index untouched. -/
theorem clean_sleepers_amended (e : Exec) (now : Nat) :
    (e.clean_sleepers now).sleepers =
      e.sleepers.dropWhile (fun n => is_due now n.wake_tick) ∧
    (e.clean_sleepers now).bufAt e.widx =
      e.bufAt e.widx ++
        ((e.sleepers.takeWhile (fun n => is_due now n.wake_tick)).map Sleeper_t.task).take
          (ASYNC_TASK_MAX - (e.bufAt e.widx).length) ∧
    (e.clean_sleepers now).bufAt (!e.widx) = e.bufAt (!e.widx) ∧
    (e.clean_sleepers now).widx = e.widx :=
  clean_sleepers_spec_all e now

/-- C10: in `clean_sleepers` a due sleeper is removed from the heap
unconditionally — the heap always ends up as the not-due suffix — and when
the target write buffer is already full the push is skipped while the entry
is still popped, so the due tasks are silently discarded: both buffers are
left exactly as they were, no assertion fires (the function is total), and
the dropped entries are gone from the heap, never to be retried. -/
theorem clean_sleepers_full_discards (e : Exec) (now : Nat) :
    (e.clean_sleepers now).sleepers =
      e.sleepers.dropWhile (fun n => is_due now n.wake_tick) ∧
    ((e.bufAt e.widx).length = ASYNC_TASK_MAX →
      (e.clean_sleepers now).bufAt e.widx = e.bufAt e.widx ∧
      (e.clean_sleepers now).bufAt (!e.widx) = e.bufAt (!e.widx)) := by
  obtain ⟨h1, h2, h3, -⟩ := clean_sleepers_spec_all e now
  refine ⟨h1, ?_⟩
  intro hfull
  refine ⟨?_, h3⟩
  rw [h2, hfull, Nat.sub_self, List.take_zero, List.append_nil]

/-- Witness for C10 at a concrete full-buffer state: the due sleeper
`(wake = 7, task = 99)` at `now = 20` is popped and its task dropped. -/
theorem clean_sleepers_full_discards_witness :
    (Exec.clean_sleepers ⟨List.replicate 256 3, [], false, [⟨7, 99⟩]⟩ 20).sleepers =
      ([⟨7, 99⟩] : List Sleeper_t).dropWhile (fun n => is_due 20 n.wake_tick) ∧
    (Exec.clean_sleepers ⟨List.replicate 256 3, [], false, [⟨7, 99⟩]⟩ 20).bufAt false =
      (⟨List.replicate 256 3, [], false, [⟨7, 99⟩]⟩ : Exec).bufAt false ∧
    (Exec.clean_sleepers ⟨List.replicate 256 3, [], false, [⟨7, 99⟩]⟩ 20).bufAt (!false) =
      (⟨List.replicate 256 3, [], false, [⟨7, 99⟩]⟩ : Exec).bufAt (!false) :=
  ⟨(clean_sleepers_full_discards ⟨List.replicate 256 3, [], false, [⟨7, 99⟩]⟩ 20).1,
   (clean_sleepers_full_discards ⟨List.replicate 256 3, [], false, [⟨7, 99⟩]⟩ 20).2
     (by
       show (List.replicate 256 3).length = ASYNC_TASK_MAX
       rw [List.length_replicate, ASYNC_TASK_MAX])⟩

end MOS
